import Mathlib

/-!
The package `pkg/elasticsearch`: client registry, connection builder and request bodies.

A shallow embedding of `src/pkg/elasticsearch/elasticsearch.go`.

* Go `string` values are Lean `String`s.  The only separator the source splits on is
  the one-byte string `","`, so splitting on the character `','` is splitting on that byte.
* A `*Elasticsearch` is an address into a heap of `Elasticsearch` structs; `&Elasticsearch{}`
  allocates the next address.  The package variable `EsPool` is part of the state.
* The library calls `elasticsearch.NewClient`, `Client.Ping` and `req.Do` talk to the network;
  their outcomes are parameters of the model.
* `panic` and the run-time nil-pointer fault are explicit results.
-/

set_option autoImplicit false

/-! ## Go standard library: `strings` -/

namespace strings

/-- Go `strings.Index(s, sep)` for a one-byte `sep`: position of the first `sep` in `s`,
`none` for Go's `-1`.  The position counts characters where Go counts bytes; `genSplit` cuts
with `take` and `drop`, which count characters too, so the pieces are those of Go. -/
def Index : List Char → Char → Option Nat
  | [], _ => none
  | c :: cs, sep => if c = sep then some 0 else (Index cs sep).map (· + 1)

/-- Go `strings.Count(s, sep)` for a one-byte `sep`. -/
def Count : List Char → Char → Nat
  | [], _ => 0
  | c :: cs, sep => (if c = sep then 1 else 0) + Count cs sep

/-- The loop of Go `strings.genSplit` (with `sepSave = 0`): at most `n` cuts, each at the first
remaining separator; what is left after the last cut is the last piece. -/
def genSplit (sep : Char) : Nat → List Char → List (List Char)
  | 0, s => [s]
  | n + 1, s =>
    match Index s sep with
    | none => [s]
    | some m => s.take m :: genSplit sep n (s.drop (m + 1))

/-- Go `strings.Split(s, sep)` for a one-byte `sep`: `genSplit` with `n = Count(s, sep)` cuts. -/
def Split (s : String) (sep : Char) : List String :=
  (genSplit sep (Count s.data sep) s.data).map String.mk

/-- Go `strings.Join(elems, sep)`. -/
def Join : List String → String → String
  | [], _ => ""
  | [e], _ => e
  | e :: e2 :: es, sep => e ++ sep ++ Join (e2 :: es) sep

/-- No two neighbours in `s` are both `sep`. -/
def NoDoubleSep (sep : Char) (s : List Char) : Prop :=
  List.Chain' (fun a b => ¬ (a = sep ∧ b = sep)) s

/-- The shape of a string none of whose `sep`-separated pieces is empty. -/
def NoEmptyPiece (sep : Char) (s : List Char) : Prop :=
  s ≠ [] ∧ s.head? ≠ some sep ∧ s.getLast? ≠ some sep ∧ NoDoubleSep sep s

end strings

/-! ## The library `github.com/elastic/go-elasticsearch/v8` -/

namespace elasticsearch

/-- The `http.Transport` literal of `CreateEs`; durations in seconds, `MinVersion` the TLS
version number. -/
structure Transport where
  MaxIdleConnsPerHost : Nat
  ResponseHeaderTimeout : Nat
  DialTimeout : Nat
  MinVersion : Nat
  deriving DecidableEq, Repr

/-- The fields of `elasticsearch.Config` that `CreateEs` sets. -/
structure Config where
  Addresses : List String
  Transport : Transport
  deriving DecidableEq, Repr

/-- An `elasticsearch.Client`, identified by the configuration it was built from. -/
structure Client where
  cfg : Config
  deriving DecidableEq, Repr

end elasticsearch

namespace SimpleChat

/-- A Go `error` value, by its message. -/
abbrev Error := String

/-- Go `tls.VersionTLS11`. -/
def VersionTLS11 : Nat := 0x0302

/-- The outcomes of the library calls made by `CreateEs`. -/
structure Env where
  /-- The pair `(client, err)` returned by `elasticsearch.NewClient(cfg)`; `none` is `nil`. -/
  NewClient : elasticsearch.Config → Option elasticsearch.Client × Option Error
  /-- The `err` returned by `client.Ping()`; `none` is `nil`. -/
  Ping : elasticsearch.Client → Option Error

/-- The struct `Elasticsearch`; `Client` is a pointer, `none` is `nil`. -/
structure Elasticsearch where
  Client : Option elasticsearch.Client
  deriving DecidableEq, Repr

/-- A `*Elasticsearch`: the address of a heap cell. -/
abbrev Ptr := Nat

/-- A Go `map[string]*Elasticsearch` as an association list with at most one entry per key
written by `GoMap.set`. -/
abbrev GoMap := List (String × Ptr)

namespace GoMap

/-- The lookup `e, ok := m[k]`: `some e` when `ok`. -/
def get : GoMap → String → Option Ptr
  | [], _ => none
  | (k', v) :: m, k => if k' = k then some v else get m k

/-- The map without key `k`. -/
def erase : GoMap → String → GoMap
  | [], _ => []
  | (k', v) :: m, k => if k' = k then erase m k else (k', v) :: erase m k

/-- The assignment `m[k] = v`: the entry of `k` is replaced or added. -/
def set (m : GoMap) (k : String) (v : Ptr) : GoMap :=
  (k, v) :: erase m k

end GoMap

/-- The program state the registry code reads and writes. -/
structure State where
  /-- The allocated `Elasticsearch` structs; a `*Elasticsearch` is an index into it. -/
  heap : List Elasticsearch
  /-- The package variable `EsPool`. -/
  EsPool : GoMap
  deriving DecidableEq, Repr

/-- The state at process start: `var EsPool = make(map[string]*Elasticsearch)`. -/
def State.init : State := { heap := [], EsPool := [] }

/-- What a Go `panic` carries: the error passed to `panic(err)`, or the run-time error of a
nil-pointer dereference. -/
inductive Panic where
  | error (err : Error)
  | nilDeref
  deriving DecidableEq, Repr

/-- How a call ends: it returns a value, or it panics; either way with the state it left. -/
inductive Result (α : Type) where
  | ret (v : α) (s : State)
  | panic (p : Panic) (s : State)
  deriving DecidableEq, Repr

/-- The state a call left behind. -/
def Result.state {α : Type} : Result α → State
  | .ret _ s => s
  | .panic _ s => s

/-- The `elasticsearch.Config` literal of `CreateEs` for the address list `url`. -/
def mkConfig (url : List String) : elasticsearch.Config :=
  { Addresses := url
    Transport :=
      { MaxIdleConnsPerHost := 10
        ResponseHeaderTimeout := 60
        DialTimeout := 10
        MinVersion := VersionTLS11 } }

/-- The endpoint list of `CreateEs`: `url := strings.Split(host, ",")`. -/
def endpoints (host : String) : List String :=
  strings.Split host ','

/-- Go `CreateEs(host)`. -/
def CreateEs (env : Env) (host : String) (s : State) : Result Ptr :=
  let url := endpoints host
  let cfg := mkConfig url
  -- es := &Elasticsearch{}
  let es : Ptr := s.heap.length
  let s1 : State := { s with heap := s.heap ++ [{ Client := none }] }
  -- es.Client, err = elasticsearch.NewClient(cfg)
  let r := env.NewClient cfg
  let s2 : State := { s1 with heap := s1.heap.set es { Client := r.1 } }
  match r.2 with
  | some err => .panic (.error err) s2
  | none =>
    -- _, err = es.Client.Ping()
    match r.1 with
    | none => .panic .nilDeref s2
    | some client =>
      match env.Ping client with
      | some err => .panic (.error err) s2
      | none => .ret es s2

/-- Go `GetEs(name, host)`. -/
def GetEs (env : Env) (name host : String) (s : State) : Result Ptr :=
  match GoMap.get s.EsPool name with
  | some e => .ret e s
  | none =>
    match CreateEs env host s with
    | .panic p s1 => .panic p s1
    | .ret e s1 => .ret e { s1 with EsPool := GoMap.set s1.EsPool name e }

/-- One `GetEs` call of a caller: its arguments and what the network does during it. -/
structure Call where
  env : Env
  name : String
  host : String

/-- The state after a sequence of `GetEs` calls, a panicking call being recovered by its
caller. -/
def runCalls (s : State) : List Call → State
  | [] => s
  | c :: cs => runCalls (GetEs c.env c.name c.host s).state cs

/-- Every pointer stored in the registry is the address of an allocated struct. -/
def State.WF (s : State) : Prop :=
  ∀ k p, GoMap.get s.EsPool k = some p → p < s.heap.length

/-! ### `GetEs` statement by statement

`GetEs` holds no lock, so another call can run between two of its statements.  A call in
progress is a `Thread`; a step runs its next statement on the shared state, each statement as a
whole. -/

/-- A `GetEs(name, host)` call in progress, by the statement it runs next: `start` is before
`e, ok := EsPool[name]`, `missed` is before `e := CreateEs(host)`, `built e` is before
`EsPool[name] = e`; `returned e` and `panicked p` are finished calls. -/
inductive Thread where
  | start
  | missed
  | built (e : Ptr)
  | returned (e : Ptr)
  | panicked (p : Panic)
  deriving DecidableEq, Repr

/-- The next statement of a `GetEs(name, host)` call on the state `s`; a finished call stays as
it is. -/
def GetEs.step (env : Env) (name host : String) : Thread → State → Thread × State
  | .start, s =>
    match GoMap.get s.EsPool name with
    | some e => (.returned e, s)
    | none => (.missed, s)
  | .missed, s =>
    match CreateEs env host s with
    | .ret e s1 => (.built e, s1)
    | .panic p s1 => (.panicked p, s1)
  | .built e, s => (.returned e, { s with EsPool := GoMap.set s.EsPool name e })
  | .returned e, s => (.returned e, s)
  | .panicked p, s => (.panicked p, s)

/-- A call runs `n` statements without another call in between. -/
def GetEs.steps (env : Env) (name host : String) : Nat → Thread × State → Thread × State
  | 0, x => x
  | n + 1, x => GetEs.steps env name host n (GetEs.step env name host x.1 x.2)

/-- The finished call that a result of `GetEs` stands for. -/
def Thread.ofResult : Result Ptr → Thread
  | .ret e _ => .returned e
  | .panic p _ => .panicked p

/-- Some calls of `GetEs` in progress on one shared state. -/
structure Sys where
  threads : List Thread
  state : State
  deriving DecidableEq, Repr

/-- All `calls` about to start on the state `s`. -/
def Sys.start (calls : List Call) (s : State) : Sys :=
  { threads := calls.map fun _ => Thread.start, state := s }

/-- The call number `i` runs its next statement. -/
def Sys.step (calls : List Call) (i : Nat) (y : Sys) : Sys :=
  match calls[i]?, y.threads[i]? with
  | some c, some t =>
    let r := GetEs.step c.env c.name c.host t y.state
    { threads := y.threads.set i r.1, state := r.2 }
  | _, _ => y

/-- The calls run under a schedule: the list of the call numbers in the order they take a
step. -/
def Sys.run (calls : List Call) : List Nat → Sys → Sys
  | [], y => y
  | i :: sched, y => Sys.run calls sched (Sys.step calls i y)

/-- The schedule without overlap for the `k` calls from number `i` on: each call runs its three
statements before the next call starts. -/
def Sys.sequential : Nat → Nat → List Nat
  | _, 0 => []
  | i, k + 1 => i :: i :: i :: Sys.sequential (i + 1) k

/-- The schedule of two calls that overlap: both look up, then both build, then both store. -/
def Sys.interleaved : List Nat := [0, 1, 0, 1, 0, 1]

/-- The build of `host` succeeds in `env`: `NewClient` returns a client and no error, and the
ping of that client returns no error. -/
def Env.Builds (env : Env) (host : String) : Prop :=
  (env.NewClient (mkConfig (endpoints host))).2 = none ∧
    ∃ client, (env.NewClient (mkConfig (endpoints host))).1 = some client ∧
      env.Ping client = none

/-- An environment in which every build succeeds. -/
def Env.allOk : Env :=
  { NewClient := fun cfg => (some { cfg := cfg }, none)
    Ping := fun _ => none }

/-- An environment in which `NewClient` succeeds and the ping fails. -/
def Env.pingDown : Env :=
  { NewClient := fun cfg => (some { cfg := cfg }, none)
    Ping := fun _ => some "connection refused" }

/-- An environment in which `NewClient` fails. -/
def Env.badConfig : Env :=
  { NewClient := fun _ => (none, some "cannot create client")
    Ping := fun _ => none }

end SimpleChat

/-! ## Go standard library: `strconv`, `encoding/json` -/

namespace strconv

/-- Go `strconv.Itoa(i)`: the decimal rendering of `i`. -/
def Itoa (i : Int) : String := toString i

end strconv

namespace json

/-- The Go values the source passes to `json.Marshal`: strings, `int`s, `float64` constants and
maps with string keys (`map[string]interface{}`, `map[string]float64`).  A `float64` constant is
kept as the decimal it is written as, `digits / 10 ^ scale`. -/
inductive Value where
  | str (s : String)
  | int (i : Int)
  | float (digits : Nat) (scale : Nat)
  | map (m : List (String × Value))

/-- The lower-case hexadecimal digit of `n`. -/
def hex (n : Nat) : Char := "0123456789abcdef".data.getD n '0'

/-- How `encoding/json` writes one character of a string (HTML escaping on, as `json.Marshal`
has it): quote and backslash get a backslash, the control characters, `<`, `>`, `&`, U+2028 and
U+2029 are escaped, every other character is written as it is. -/
def escapeChar (c : Char) : List Char :=
  if c = '"' then ['\\', '"']
  else if c = '\\' then ['\\', '\\']
  else if c = '\x08' then ['\\', 'b']
  else if c = '\x0c' then ['\\', 'f']
  else if c = '\n' then ['\\', 'n']
  else if c = '\r' then ['\\', 'r']
  else if c = '\t' then ['\\', 't']
  else if c.toNat < 0x20 ∨ c = '<' ∨ c = '>' ∨ c = '&' then
    ['\\', 'u', '0', '0', hex (c.toNat / 16), hex (c.toNat % 16)]
  else if c.toNat = 0x2028 ∨ c.toNat = 0x2029 then
    ['\\', 'u', '2', '0', '2', hex (c.toNat % 16)]
  else [c]

/-- A JSON string literal: the escaped characters between two quotes. -/
def quote (s : String) : String :=
  String.mk ('"' :: (s.data.flatMap escapeChar ++ ['"']))

/-- Go's string order `a < b` on the characters of two keys. -/
def less : List Char → List Char → Bool
  | _, [] => false
  | [], _ :: _ => true
  | a :: as, b :: bs => a.toNat < b.toNat || (a.toNat == b.toNat && less as bs)

/-- One step of sorting the members of a map by key. -/
def insertKey (e : String × String) : List (String × String) → List (String × String)
  | [] => [e]
  | x :: xs => if less e.1.data x.1.data then e :: x :: xs else x :: insertKey e xs

/-- The members of a map in the order `encoding/json` writes them: sorted by key. -/
def sortKeys : List (String × String) → List (String × String)
  | [] => []
  | e :: es => insertKey e (sortKeys es)

/-- The string `s` filled up with zeros on the left to `n` characters. -/
def padLeft (n : Nat) (s : String) : String :=
  String.mk (List.replicate (n - s.length) '0') ++ s

/-- How `encoding/json` writes the `float64` constant `digits / 10 ^ scale` in its format `f`
(shortest digits that give the constant back): the integer part, and the `scale` decimals when
there are any.  This is Go's output for a constant of at most 15 digits written without a
trailing zero and of size from `1e-6` up to, not including, `1e21`, as the six constants of the
source are; outside this range Go writes an exponent, which is not modelled. -/
def formatFloat (digits scale : Nat) : String :=
  toString (digits / 10 ^ scale) ++
    (if scale = 0 then "" else "." ++ padLeft scale (toString (digits % 10 ^ scale)))

mutual
/-- Go `json.Marshal(v)` for the values of `Value`; it returns no error on them. -/
def Marshal : Value → String
  | .str s => quote s
  | .int i => toString i
  | .float digits scale => formatFloat digits scale
  | .map m =>
    "\x7b" ++ ",".intercalate ((sortKeys (marshalFields m)).map fun e => quote e.1 ++ ":" ++ e.2)
      ++ "\x7d"
termination_by structural v => v
/-- The members of a map, each with its value marshalled. -/
def marshalFields : List (String × Value) → List (String × String)
  | [] => []
  | (k, v) :: m => (k, Marshal v) :: marshalFields m
termination_by structural m => m
end

end json

namespace SimpleChat

/-! ## The operations on a client -/

/-- The fields of the `esapi` request structs that the operations set; `api` names the struct
(`esapi.CreateRequest` is `"Create"`), `Index` holds the index name or names, `Timeout` is in
seconds, an unset field is empty or 0. -/
structure Request where
  api : String
  Index : List String
  DocumentID : String
  Body : String
  Timeout : Nat
  deriving DecidableEq, Repr

/-- An `esapi.Response`, by the text `res.String()` renders it as. -/
structure Response where
  text : String
  deriving DecidableEq, Repr

/-- The pair `(res, err)` that `req.Do(ctx, e.Client)` returns for a request; `none` is `nil`. -/
abbrev Transport := Request → Option Response × Option Error

/-- What an operation has done when it ends: the lines it printed, and whether it closed the
response body. -/
structure Effects where
  stdout : List String
  bodyClosed : Bool
  deriving DecidableEq, Repr

/-- How an operation ends: it returns, or it stops with a panic. -/
inductive Outcome where
  | done (fx : Effects)
  | fault (p : Panic) (fx : Effects)
  deriving DecidableEq, Repr

/-- The end of every operation, `defer res.Body.Close()` then `fmt.Println(res.String())`,
after the lines `stdout` were printed.  The `defer` statement evaluates `res.Body` on the spot:
with `res == nil` that is a nil-pointer dereference.  Otherwise the line is printed and the
deferred `Close` runs when the operation returns. -/
def closeAndPrint (res : Option Response) (stdout : List String) : Outcome :=
  match res with
  | none => .fault .nilDeref { stdout := stdout, bodyClosed := false }
  | some r => .done { stdout := stdout ++ [r.text], bodyClosed := true }

/-- The raw string `mapping` of `CreateIndex`. -/
def CreateIndex.mapping : String :=
  "\x7b\n\t\t\"mappings\":\t\x7b\n\t\t\t\"properties\": \x7b\n\t\t\t\t\"id\": \x7b\n\t\t\t\t\t\"type\": \"integer\"\n\t\t\t\t\x7d,\n\t\t\t\t\"location\": \x7b\n\t\t\t\t\t\"type\": \"geo_point\"\n\t\t\t\t\x7d\n\t\t\t\x7d\n\t\t\x7d\n\t\x7d"

/-- Go `(e *Elasticsearch) CreateIndex(ctx)`: `res, _ := req.Do(ctx, e.Client)`. -/
def CreateIndex (Do : Transport) : Outcome :=
  let req : Request :=
    { api := "IndicesCreate", Index := ["test_index"], DocumentID := "",
      Body := CreateIndex.mapping, Timeout := 0 }
  let r := Do req
  closeAndPrint r.1 []

/-- The document of `InsertToEs` and of the loop of `InsertBatch`:
`map[string]interface{}{"id": i, "location": map[string]float64{"lat": 3.1415, "lon": 110.2567}}`. -/
def document (i : Int) : json.Value :=
  .map [("id", .int i), ("location", .map [("lat", .float 31415 4), ("lon", .float 1102567 4)])]

/-- Go `(e *Elasticsearch) InsertToEs(ctx)`. -/
def InsertToEs (Do : Transport) : Outcome :=
  let body := document 1
  let jsonBody := json.Marshal body
  let req : Request :=
    { api := "Create", Index := ["test_index"], DocumentID := "test_1",
      Body := jsonBody, Timeout := 5 }
  let r := Do req
  -- if err != nil { fmt.Println(err) }
  let stdout : List String :=
    match r.2 with
    | some err => [err]
    | none => []
  closeAndPrint r.1 stdout

/-- The value `createLine` of the loop of `InsertBatch` for the counter `i`. -/
def InsertBatch.createLine (i : Int) : json.Value :=
  .map [("create", .map [("_index", .str "test_index"), ("_id", .str ("test_" ++ strconv.Itoa i))])]

/-- The loop `for i := 2; i < 10; i++` of `InsertBatch`, from the counter `i` and the buffer
`bodyBuf` on: each round writes the action line, a newline, the document line, a newline. -/
def InsertBatch.loop (i : Int) (bodyBuf : String) : String :=
  if i < 10 then
    let jsonStr := json.Marshal (InsertBatch.createLine i)
    let bodyBuf := bodyBuf ++ jsonStr
    let bodyBuf := bodyBuf.push '\n'
    let jsonStr := json.Marshal (document i)
    let bodyBuf := bodyBuf ++ jsonStr
    let bodyBuf := bodyBuf.push '\n'
    InsertBatch.loop (i + 1) bodyBuf
  else bodyBuf
termination_by (10 - i).toNat
decreasing_by omega

/-- What one round of the loop of `InsertBatch` appends to the buffer for the counter `i`. -/
def InsertBatch.entry (i : Int) : String :=
  ((json.Marshal (InsertBatch.createLine i)).push '\n' ++ json.Marshal (document i)).push '\n'

/-- The entries of the counters `ids`, one after the other. -/
def InsertBatch.entries : List Int → String
  | [] => ""
  | i :: ids => InsertBatch.entry i ++ InsertBatch.entries ids

/-- The `n` counters from `i` on: `i, i + 1, ...`. -/
def InsertBatch.counters (i : Int) : Nat → List Int
  | 0 => []
  | n + 1 => i :: InsertBatch.counters (i + 1) n

/-- The buffer `bodyBuf` of `InsertBatch` when the request is built. -/
def InsertBatch.bodyBuf : String :=
  InsertBatch.loop 2 ""

/-- Go `(e *Elasticsearch) InsertBatch(ctx)`. -/
def InsertBatch (Do : Transport) : Outcome :=
  let req : Request :=
    { api := "Bulk", Index := [], DocumentID := "", Body := InsertBatch.bodyBuf, Timeout := 0 }
  let r := Do req
  closeAndPrint r.1 []

/-- Go `(e *Elasticsearch) Query(ctx)`. -/
def Query (Do : Transport) : Outcome :=
  let query : json.Value :=
    .map [("query", .str "select id,location from test_index order by id desc limit 2")]
  let jsonBody := json.Marshal query
  let req : Request :=
    { api := "SQLQuery", Index := [], DocumentID := "", Body := jsonBody, Timeout := 0 }
  let r := Do req
  closeAndPrint r.1 []

/-- Go `(e *Elasticsearch) DeleteIndex(ctx)`. -/
def DeleteIndex (Do : Transport) : Outcome :=
  let req : Request :=
    { api := "IndicesDelete", Index := ["test_index"], DocumentID := "", Body := "",
      Timeout := 0 }
  let r := Do req
  closeAndPrint r.1 []

/-- The raw string `query` of `SelectBySearch`. -/
def SelectBySearch.query : String :=
  "\x7b\"query\" : \x7b\"bool\" : \x7b\"must\": [\x7b\"match_all\" : \x7b\x7d\x7d]\x7d\x7d,\"from\" : 0,\"size\" : 2,\"sort\" : [\x7b\"id\": \"desc\"\x7d]\x7d"

/-- Go `(e *Elasticsearch) SelectBySearch(ctx)`. -/
def SelectBySearch (Do : Transport) : Outcome :=
  let req : Request :=
    { api := "Search", Index := ["test_index"], DocumentID := "",
      Body := SelectBySearch.query, Timeout := 0 }
  let r := Do req
  closeAndPrint r.1 []

/-- Go `(e *Elasticsearch) UpdateSingle(ctx)`. -/
def UpdateSingle (Do : Transport) : Outcome :=
  let body : json.Value :=
    .map [("doc", .map [("location", .map [("lat", .float 35555 4), ("lon", .float 11066666 5)])])]
  let jsonBody := json.Marshal body
  let req : Request :=
    { api := "Update", Index := ["test_index"], DocumentID := "test_1", Body := jsonBody,
      Timeout := 0 }
  let r := Do req
  closeAndPrint r.1 []

/-- The raw string `"source"` of the script of `UpdateByQuery`. -/
def UpdateByQuery.source : String :=
  "\n                ctx._source.location = params.location;\n                ctx._source.id = params.id;\n            "

/-- Go `(e *Elasticsearch) UpdateByQuery(ctx)`. -/
def UpdateByQuery (Do : Transport) : Outcome :=
  let body : json.Value :=
    .map [("script", .map [("lang", .str "painless"),
                           ("source", .str UpdateByQuery.source),
                           ("params", .map [("location", .map [("lat", .float 39999 4),
                                                               ("lon", .float 1108888 4)]),
                                            ("id", .int 10)])]),
          ("query", .map [("term", .map [("id", .int 1)])])]
  let jsonBody := json.Marshal body
  let req : Request :=
    { api := "UpdateByQuery", Index := ["test_index"], DocumentID := "", Body := jsonBody,
      Timeout := 0 }
  let r := Do req
  closeAndPrint r.1 []

/-- Go `(e *Elasticsearch) DeleteSingle(ctx)`. -/
def DeleteSingle (Do : Transport) : Outcome :=
  let req : Request :=
    { api := "Delete", Index := ["test_index"], DocumentID := "test_1", Body := "",
      Timeout := 0 }
  let r := Do req
  closeAndPrint r.1 []

/-- Go `(e *Elasticsearch) DeleteByQuery(ctx)`. -/
def DeleteByQuery (Do : Transport) : Outcome :=
  let body : json.Value := .map [("query", .map [("term", .map [("id", .int 2)])])]
  let jsonBody := json.Marshal body
  let req : Request :=
    { api := "DeleteByQuery", Index := ["test_index"], DocumentID := "", Body := jsonBody,
      Timeout := 0 }
  let r := Do req
  closeAndPrint r.1 []

/-- The ten operations on a client, in the order of the source file. -/
def operations : List (Transport → Outcome) :=
  [CreateIndex, Query, DeleteIndex, InsertToEs, InsertBatch, SelectBySearch, UpdateSingle,
   UpdateByQuery, DeleteSingle, DeleteByQuery]

/-- The outcome is a panic. -/
def Outcome.isFault : Outcome → Bool
  | .done _ => false
  | .fault _ _ => true

/-- The lines of a newline-delimited body: the pieces before each `'\n'`. -/
def bulkLines (body : String) : List String :=
  (strings.Split body '\n').dropLast

/-- What is left of a body after its last `'\n'`. -/
def bulkRest (body : String) : Option String :=
  (strings.Split body '\n').getLast?

/-- The sixteen lines Go writes into the bulk body of `InsertBatch`. -/
def InsertBatch.expectedLines : List String :=
  ["\x7b\"create\":\x7b\"_id\":\"test_2\",\"_index\":\"test_index\"\x7d\x7d",
   "\x7b\"id\":2,\"location\":\x7b\"lat\":3.1415,\"lon\":110.2567\x7d\x7d",
   "\x7b\"create\":\x7b\"_id\":\"test_3\",\"_index\":\"test_index\"\x7d\x7d",
   "\x7b\"id\":3,\"location\":\x7b\"lat\":3.1415,\"lon\":110.2567\x7d\x7d",
   "\x7b\"create\":\x7b\"_id\":\"test_4\",\"_index\":\"test_index\"\x7d\x7d",
   "\x7b\"id\":4,\"location\":\x7b\"lat\":3.1415,\"lon\":110.2567\x7d\x7d",
   "\x7b\"create\":\x7b\"_id\":\"test_5\",\"_index\":\"test_index\"\x7d\x7d",
   "\x7b\"id\":5,\"location\":\x7b\"lat\":3.1415,\"lon\":110.2567\x7d\x7d",
   "\x7b\"create\":\x7b\"_id\":\"test_6\",\"_index\":\"test_index\"\x7d\x7d",
   "\x7b\"id\":6,\"location\":\x7b\"lat\":3.1415,\"lon\":110.2567\x7d\x7d",
   "\x7b\"create\":\x7b\"_id\":\"test_7\",\"_index\":\"test_index\"\x7d\x7d",
   "\x7b\"id\":7,\"location\":\x7b\"lat\":3.1415,\"lon\":110.2567\x7d\x7d",
   "\x7b\"create\":\x7b\"_id\":\"test_8\",\"_index\":\"test_index\"\x7d\x7d",
   "\x7b\"id\":8,\"location\":\x7b\"lat\":3.1415,\"lon\":110.2567\x7d\x7d",
   "\x7b\"create\":\x7b\"_id\":\"test_9\",\"_index\":\"test_index\"\x7d\x7d",
   "\x7b\"id\":9,\"location\":\x7b\"lat\":3.1415,\"lon\":110.2567\x7d\x7d"]

/-- A transport that fails: `req.Do` returns no response and an error. -/
def Transport.down : Transport :=
  fun _ => (none, some "dial tcp 127.0.0.1:9200: connect: connection refused")

/-- A transport that answers every request with status 200. -/
def Transport.up : Transport :=
  fun _ => (some { text := "[200 OK] \x7b\x7d" }, none)

/-- A state in which the name `"main"` is stored, built for `http://a:9200`. -/
def State.withMain : State :=
  { heap := [{ Client := some { cfg := mkConfig ["http://a:9200"] } }]
    EsPool := [("main", 0)] }

/-- A state in which `"main"` and `"logs"` are stored. -/
def State.withMainLogs : State :=
  { heap := [{ Client := some { cfg := mkConfig ["http://a:9200"] } },
             { Client := some { cfg := mkConfig ["http://c:9200"] } }]
    EsPool := [("logs", 1), ("main", 0)] }

/-- A `GetEs("main", "http://a:9200")` while the network is up. -/
def Call.main : Call :=
  { env := Env.allOk, name := "main", host := "http://a:9200" }

/-- A successful `GetEs("logs", "http://c:9200")`. -/
def Call.logs : Call :=
  { env := Env.allOk, name := "logs", host := "http://c:9200" }

end SimpleChat

/-! ## Facts about `strings.Split` -/

namespace strings

theorem Index_eq_none {s : List Char} {sep : Char} (h : Index s sep = none) : sep ∉ s := by
  induction s with
  | nil => simp
  | cons c cs ih =>
    simp only [Index] at h
    split at h
    · simp at h
    · rename_i hc
      simp only [Option.map_eq_none'] at h
      simp only [List.mem_cons, not_or]
      exact ⟨fun e => hc e.symm, ih h⟩

theorem Index_eq_some {s : List Char} {sep : Char} {m : Nat} (h : Index s sep = some m) :
    s = s.take m ++ sep :: s.drop (m + 1) ∧ sep ∉ s.take m ∧
      Count s sep = Count (s.drop (m + 1)) sep + 1 := by
  induction s generalizing m with
  | nil => simp [Index] at h
  | cons c cs ih =>
    simp only [Index] at h
    split at h
    · rename_i hc
      simp only [Option.some.injEq] at h
      subst h
      subst hc
      simp [Count]
      omega
    · rename_i hc
      simp only [Option.map_eq_some'] at h
      obtain ⟨m', hm', rfl⟩ := h
      obtain ⟨h1, h2, h3⟩ := ih hm'
      refine ⟨?_, ?_, ?_⟩
      · simp only [List.take_succ_cons, List.drop_succ_cons, List.cons_append]
        rw [← h1]
      · simp only [List.take_succ_cons, List.mem_cons, not_or]
        exact ⟨fun e => hc e.symm, h2⟩
      · simp only [Count, if_neg hc, List.drop_succ_cons, zero_add]
        exact h3

theorem Count_eq_zero {s : List Char} {sep : Char} (h : Count s sep = 0) : sep ∉ s := by
  induction s with
  | nil => simp
  | cons c cs ih =>
    simp only [Count] at h
    by_cases hc : c = sep
    · simp [hc] at h
    · simp only [if_neg hc, zero_add] at h
      simp only [List.mem_cons, not_or]
      exact ⟨fun e => hc e.symm, ih h⟩

theorem Index_of_Count_pos {s : List Char} {sep : Char} (h : 0 < Count s sep) :
    ∃ m, Index s sep = some m := by
  cases hI : Index s sep with
  | some m => exact ⟨m, rfl⟩
  | none =>
    have hn := Index_eq_none hI
    have : Count s sep = 0 := by
      clear h hI
      induction s with
      | nil => rfl
      | cons c cs ih =>
        simp only [List.mem_cons, not_or] at hn
        have hc : ¬ c = sep := fun e => hn.1 e.symm
        simp only [Count, if_neg hc, zero_add]
        exact ih hn.2
    omega

theorem genSplit_ne_nil (sep : Char) (n : Nat) (s : List Char) : genSplit sep n s ≠ [] := by
  cases n with
  | zero => simp [genSplit]
  | succ n =>
    simp only [genSplit]
    split <;> simp

theorem genSplit_length (sep : Char) (n : Nat) (s : List Char) (h : Count s sep = n) :
    (genSplit sep n s).length = n + 1 := by
  induction n generalizing s with
  | zero => simp [genSplit]
  | succ n ih =>
    obtain ⟨m, hm⟩ := @Index_of_Count_pos s sep (by omega)
    have h3 := (Index_eq_some hm).2.2
    simp only [genSplit, hm, List.length_cons]
    rw [ih _ (by omega)]

theorem genSplit_sep_free (sep : Char) (n : Nat) (s : List Char) (h : Count s sep = n) :
    ∀ e ∈ genSplit sep n s, sep ∉ e := by
  induction n generalizing s with
  | zero =>
    intro e he
    simp only [genSplit, List.mem_singleton] at he
    subst he
    exact Count_eq_zero h
  | succ n ih =>
    obtain ⟨m, hm⟩ := @Index_of_Count_pos s sep (by omega)
    obtain ⟨_, h2, h3⟩ := Index_eq_some hm
    intro e he
    simp only [genSplit, hm, List.mem_cons] at he
    rcases he with rfl | he
    · exact h2
    · exact ih _ (by omega) e he

theorem genSplit_intercalate (sep : Char) (n : Nat) (s : List Char) :
    List.intercalate [sep] (genSplit sep n s) = s := by
  induction n generalizing s with
  | zero => simp [genSplit, List.intercalate]
  | succ n ih =>
    cases hI : Index s sep with
    | none => simp [genSplit, hI, List.intercalate]
    | some m =>
      obtain ⟨h1, _, _⟩ := Index_eq_some hI
      have hrec := ih (s.drop (m + 1))
      simp only [genSplit, hI]
      cases hg : genSplit sep n (s.drop (m + 1)) with
      | nil => exact absurd hg (genSplit_ne_nil sep n _)
      | cons p ps =>
        rw [hg] at hrec
        simp only [List.intercalate, List.intersperse, List.flatten_cons] at hrec ⊢
        rw [hrec]
        simpa using h1.symm

theorem Join_data (l : List String) (sep : String) :
    (Join l sep).data = List.intercalate sep.data (l.map String.data) := by
  induction l with
  | nil => rfl
  | cons e es ih =>
    cases es with
    | nil => simp [Join, List.intercalate]
    | cons e2 es =>
      simp only [Join, String.data_append, ih, List.map_cons, List.intercalate,
        List.intersperse, List.flatten_cons, List.append_assoc]

end strings

namespace strings

theorem Count_eq_count (s : List Char) (sep : Char) : Count s sep = s.count sep := by
  induction s with
  | nil => rfl
  | cons c cs ih =>
    by_cases hc : c = sep
    · subst hc
      simp [Count, ih, Nat.add_comm]
    · have hb : (c == sep) = false := by simpa using hc
      simp [Count, ih, hc, List.count_cons, hb]

theorem Index_append_sep {a : List Char} {sep : Char} (r : List Char) (h : sep ∉ a) :
    Index (a ++ sep :: r) sep = some a.length := by
  induction a with
  | nil => simp [Index]
  | cons c cs ih =>
    simp only [List.mem_cons, not_or] at h
    have hc : ¬ c = sep := fun e => h.1 e.symm
    simp [Index, hc, ih h.2]

theorem Count_of_not_mem {a : List Char} {sep : Char} (h : sep ∉ a) : Count a sep = 0 := by
  rw [Count_eq_count]
  exact List.count_eq_zero_of_not_mem h

theorem Count_append (a b : List Char) (sep : Char) :
    Count (a ++ b) sep = Count a sep + Count b sep := by
  simp [Count_eq_count]

theorem genSplit_of_intercalate (sep : Char) (l : List (List Char)) (hl : l ≠ [])
    (hfree : ∀ e ∈ l, sep ∉ e) :
    genSplit sep (Count (List.intercalate [sep] l) sep) (List.intercalate [sep] l) = l := by
  induction l with
  | nil => exact absurd rfl hl
  | cons e es ih =>
    cases es with
    | nil =>
      have he : sep ∉ e := hfree e (by simp)
      simp [List.intercalate, Count_of_not_mem he, genSplit]
    | cons e2 es =>
      have he : sep ∉ e := hfree e (by simp)
      have hrest := ih (by simp) (fun x hx => hfree x (List.mem_cons_of_mem _ hx))
      have hs : List.intercalate [sep] (e :: e2 :: es)
          = e ++ sep :: List.intercalate [sep] (e2 :: es) := by
        simp [List.intercalate, List.intersperse]
      rw [hs]
      have hcount : Count (e ++ sep :: List.intercalate [sep] (e2 :: es)) sep
          = Count (List.intercalate [sep] (e2 :: es)) sep + 1 := by
        rw [Count_append, Count_of_not_mem he]
        simp only [Count, if_true, zero_add]
        omega
      rw [hcount]
      simp only [genSplit, Index_append_sep _ he, List.take_left', List.cons.injEq, true_and]
      have hd : List.drop (e.length + 1) (e ++ sep :: List.intercalate [sep] (e2 :: es))
          = List.intercalate [sep] (e2 :: es) := by
        rw [List.drop_append_eq_append_drop]
        simp
      rw [hd]
      exact hrest

end strings

namespace SimpleChat

/-! ## The endpoint list of `CreateEs` -/

theorem endpoints_data (h : String) :
    (endpoints h).map String.data = strings.genSplit ',' (strings.Count h.data ',') h.data := by
  simp [endpoints, strings.Split, List.map_map, Function.comp_def]

/-- C6: the endpoint list `CreateEs` derives from a host string `h` is the comma-split of `h`.
It has one entry more than `h` has commas, no entry contains a comma, joining the entries with
`","` gives `h` back, and it is the only non-empty list of comma-free strings whose join is
`h` (so every endpoint, repeated or not, stays at its position). -/
theorem endpoints_is_comma_split (h : String) :
    (endpoints h).length = h.data.count ',' + 1 ∧
      (∀ e ∈ endpoints h, ',' ∉ e.data) ∧
      strings.Join (endpoints h) "," = h ∧
      (∀ l : List String, l ≠ [] → (∀ e ∈ l, ',' ∉ e.data) →
        strings.Join l "," = h → l = endpoints h) := by
  refine ⟨?_, ?_, ?_, ?_⟩
  · have := strings.genSplit_length ',' _ h.data rfl
    simpa [endpoints, strings.Split, strings.Count_eq_count] using this
  · intro e he
    have hmem : e.data ∈ (endpoints h).map String.data := List.mem_map_of_mem _ he
    rw [endpoints_data] at hmem
    exact strings.genSplit_sep_free ',' _ h.data rfl _ hmem
  · apply String.ext
    rw [strings.Join_data, endpoints_data]
    exact strings.genSplit_intercalate ',' _ h.data
  · intro l hl hfree hjoin
    have hdata : l.map String.data = (endpoints h).map String.data := by
      rw [endpoints_data, ← hjoin, strings.Join_data]
      have := strings.genSplit_of_intercalate ',' (l.map String.data) (by simpa using hl)
        (by
          intro e he
          obtain ⟨x, hx, rfl⟩ := List.mem_map.mp he
          exact hfree x hx)
      exact this.symm
    exact List.map_injective_iff.mpr (fun a b hab => String.ext hab) hdata

end SimpleChat

namespace strings

theorem head_ne_of_not_mem {a : List Char} {sep : Char} (h : sep ∉ a) :
    a.head? ≠ some sep :=
  fun e => h (List.mem_of_mem_head? (by simp [e]))

theorem getLast_ne_of_not_mem {a : List Char} {sep : Char} (h : sep ∉ a) :
    a.getLast? ≠ some sep :=
  fun e => h (List.mem_of_mem_getLast? (by simp [e]))

theorem NoDoubleSep_of_not_mem {a : List Char} {sep : Char} (h : sep ∉ a) :
    NoDoubleSep sep a := by
  induction a with
  | nil => exact List.chain'_nil
  | cons c cs ih =>
    simp only [List.mem_cons, not_or] at h
    refine List.chain'_cons'.mpr ⟨?_, ih h.2⟩
    intro y _ hy
    exact h.1 hy.1.symm

theorem NoEmptyPiece_append_sep {a : List Char} {sep : Char} (r : List Char) (h : sep ∉ a) :
    NoEmptyPiece sep (a ++ sep :: r) ↔ a ≠ [] ∧ NoEmptyPiece sep r := by
  have hhead : (a ++ sep :: r).head? ≠ some sep ↔ a ≠ [] := by
    cases a with
    | nil => simp
    | cons x xs =>
      simp only [List.mem_cons, not_or] at h
      simp only [List.cons_append, List.head?_cons, ne_eq, Option.some.injEq,
        not_false_eq_true, reduceCtorEq, iff_true]
      exact fun e => h.1 e.symm
  have hlast : (a ++ sep :: r).getLast? ≠ some sep ↔ r ≠ [] ∧ r.getLast? ≠ some sep := by
    rw [List.getLast?_append_of_ne_nil _ (by simp)]
    cases r with
    | nil => simp
    | cons y ys => simp [List.getLast?_cons_cons]
  have hchain : NoDoubleSep sep (a ++ sep :: r) ↔ r.head? ≠ some sep ∧ NoDoubleSep sep r := by
    unfold NoDoubleSep
    rw [List.chain'_append, List.chain'_cons']
    constructor
    · rintro ⟨_, ⟨h1, h2⟩, _⟩
      refine ⟨?_, h2⟩
      intro e
      exact h1 sep (by simp [e]) ⟨rfl, rfl⟩
    · rintro ⟨h1, h2⟩
      refine ⟨NoDoubleSep_of_not_mem h, ⟨?_, h2⟩, ?_⟩
      · intro y hy hyy
        apply h1
        rw [Option.mem_def] at hy
        rw [hy, hyy.2]
      · intro x hx y _ hxy
        exact h (hxy.1 ▸ List.mem_of_mem_getLast? hx)
  unfold NoEmptyPiece
  rw [hhead, hlast, hchain]
  constructor
  · rintro ⟨_, h1, ⟨h2, h3⟩, h4, h5⟩
    exact ⟨h1, h2, h4, h3, h5⟩
  · rintro ⟨h1, h2, h4, h3, h5⟩
    exact ⟨by simp, h1, ⟨h2, h3⟩, h4, h5⟩

theorem genSplit_no_empty (sep : Char) (n : Nat) (s : List Char) (h : Count s sep = n) :
    (∀ e ∈ genSplit sep n s, e ≠ []) ↔ NoEmptyPiece sep s := by
  induction n generalizing s with
  | zero =>
    have hfree := Count_eq_zero h
    simp only [genSplit, List.mem_singleton, forall_eq, NoEmptyPiece]
    constructor
    · intro hs
      exact ⟨hs, head_ne_of_not_mem hfree, getLast_ne_of_not_mem hfree,
        NoDoubleSep_of_not_mem hfree⟩
    · exact fun hs => hs.1
  | succ n ih =>
    obtain ⟨m, hm⟩ := @Index_of_Count_pos s sep (by omega)
    obtain ⟨h1, h2, h3⟩ := Index_eq_some hm
    have hrec := ih (s.drop (m + 1)) (by omega)
    simp only [genSplit, hm, List.mem_cons, forall_eq_or_imp]
    rw [hrec]
    conv_rhs => rw [h1]
    exact (NoEmptyPiece_append_sep _ h2).symm

end strings

namespace SimpleChat

/-- C7, as stated, fails: the endpoint list derived from the empty host string is the one empty
string, and a doubled comma gives an empty entry between two URLs; the empty string is no URL,
so not every host string gives a list of valid URLs. -/
theorem endpoints_not_all_valid :
    endpoints "" = [""] ∧
      endpoints "http://a:9200,,http://b:9200" = ["http://a:9200", "", "http://b:9200"] ∧
      ¬ (∀ h : String, endpoints h ≠ [] ∧ ∀ e ∈ endpoints h, e ≠ "") := by
  refine ⟨by decide, by decide, ?_⟩
  intro H
  exact (H "").2 "" (by decide) rfl

end SimpleChat

namespace SimpleChat

/-! ## The map `EsPool` -/

namespace GoMap

theorem get_erase_self (m : GoMap) (k : String) : get (erase m k) k = none := by
  induction m with
  | nil => rfl
  | cons e m ih =>
    obtain ⟨k', v⟩ := e
    by_cases hk : k' = k
    · simp [erase, hk, ih]
    · simp [erase, get, hk, ih]

theorem get_erase_ne (m : GoMap) {k k' : String} (h : k' ≠ k) :
    get (erase m k) k' = get m k' := by
  induction m with
  | nil => rfl
  | cons e m ih =>
    obtain ⟨k0, v⟩ := e
    by_cases hk : k0 = k
    · subst hk
      have hk' : ¬ k0 = k' := fun e => h e.symm
      simp [erase, get, hk', ih]
    · by_cases hk' : k0 = k'
      · subst hk'
        simp [erase, get, hk]
      · simp [erase, get, hk, hk', ih]

theorem erase_of_get_none (m : GoMap) {k : String} (h : get m k = none) : erase m k = m := by
  induction m with
  | nil => rfl
  | cons e m ih =>
    obtain ⟨k0, v⟩ := e
    by_cases hk : k0 = k
    · simp [get, hk] at h
    · simp only [get, if_neg hk] at h
      simp [erase, hk, ih h]

theorem get_set_self (m : GoMap) (k : String) (v : Ptr) : get (set m k v) k = some v := by
  simp [set, get]

theorem get_set_ne (m : GoMap) {k k' : String} (v : Ptr) (h : k' ≠ k) :
    get (set m k v) k' = get m k' := by
  have hk : ¬ k = k' := fun e => h e.symm
  simp [set, get, hk, get_erase_ne m h]

end GoMap

/-! ## `CreateEs` and `GetEs` -/

theorem CreateEs_EsPool (env : Env) (host : String) (s : State) :
    (CreateEs env host s).state.EsPool = s.EsPool := by
  unfold CreateEs
  simp only
  split
  · rfl
  · split
    · rfl
    · split <;> rfl

theorem CreateEs_heap_length (env : Env) (host : String) (s : State) :
    (CreateEs env host s).state.heap.length = s.heap.length + 1 := by
  unfold CreateEs
  simp only
  split
  · simp [Result.state]
  · split
    · simp [Result.state]
    · split <;> simp [Result.state]

theorem CreateEs_ret {env : Env} {host : String} {s s1 : State} {p : Ptr}
    (h : CreateEs env host s = .ret p s1) :
    p = s.heap.length ∧ s1.EsPool = s.EsPool ∧ s1.heap.length = s.heap.length + 1 ∧
      ∃ client, (env.NewClient (mkConfig (endpoints host))).2 = none ∧
        (env.NewClient (mkConfig (endpoints host))).1 = some client ∧
        env.Ping client = none ∧ s1.heap[p]? = some { Client := some client } := by
  have hp := CreateEs_EsPool env host s
  have hl := CreateEs_heap_length env host s
  rw [h] at hp hl
  simp only [Result.state] at hp hl
  refine ⟨?_, hp, hl, ?_⟩
  · unfold CreateEs at h
    simp only at h
    split at h
    · cases h
    · split at h
      · cases h
      · split at h
        · cases h
        · injection h with h1 _
          exact h1.symm
  · unfold CreateEs at h
    simp only at h
    split at h
    · cases h
    · rename_i herr
      split at h
      · cases h
      · rename_i client hclient
        split at h
        · cases h
        · rename_i hping
          injection h with h1 h2
          refine ⟨client, herr, hclient, hping, ?_⟩
          subst h1 h2
          simp [hclient]

theorem CreateEs_of_Builds {env : Env} {host : String} (s : State) (h : env.Builds host) :
    ∃ s1, CreateEs env host s = .ret s.heap.length s1 := by
  obtain ⟨herr, client, hclient, hping⟩ := h
  unfold CreateEs
  simp only [herr, hclient, hping]
  exact ⟨_, rfl⟩

theorem CreateEs_of_not_Builds {env : Env} {host : String} (s : State) (h : ¬ env.Builds host) :
    ∃ p s1, CreateEs env host s = .panic p s1 := by
  cases hc : CreateEs env host s with
  | panic p s1 => exact ⟨p, s1, rfl⟩
  | ret p s1 =>
    obtain ⟨_, _, _, client, h1, h2, h3, _⟩ := CreateEs_ret hc
    exact absurd ⟨h1, client, h2, h3⟩ h

theorem GetEs_hit (env : Env) {name : String} (host : String) {s : State} {e : Ptr}
    (h : GoMap.get s.EsPool name = some e) : GetEs env name host s = .ret e s := by
  simp [GetEs, h]

theorem GetEs_miss_ret {env : Env} {name host : String} {s s1 : State} {e : Ptr}
    (hmiss : GoMap.get s.EsPool name = none) (h : CreateEs env host s = .ret e s1) :
    GetEs env name host s = .ret e { s1 with EsPool := GoMap.set s1.EsPool name e } := by
  simp [GetEs, hmiss, h]

theorem GetEs_miss_panic {env : Env} {name host : String} {s s1 : State} {p : Panic}
    (hmiss : GoMap.get s.EsPool name = none) (h : CreateEs env host s = .panic p s1) :
    GetEs env name host s = .panic p s1 := by
  simp [GetEs, hmiss, h]

theorem GetEs_get_other (env : Env) {name k : String} (host : String) (s : State)
    (hk : k ≠ name) :
    GoMap.get (GetEs env name host s).state.EsPool k = GoMap.get s.EsPool k := by
  cases hget : GoMap.get s.EsPool name with
  | some e => rw [GetEs_hit env host hget]; rfl
  | none =>
    cases hc : CreateEs env host s with
    | panic p s1 =>
      rw [GetEs_miss_panic hget hc]
      have := CreateEs_EsPool env host s
      rw [hc] at this
      simp only [Result.state] at this ⊢
      rw [this]
    | ret e s1 =>
      rw [GetEs_miss_ret hget hc]
      have := CreateEs_EsPool env host s
      rw [hc] at this
      simp only [Result.state] at this ⊢
      rw [GoMap.get_set_ne _ _ hk, this]

theorem GetEs_get_self {env : Env} {name host : String} {s s1 : State} {c : Ptr}
    (h : GetEs env name host s = .ret c s1) : GoMap.get s1.EsPool name = some c := by
  cases hget : GoMap.get s.EsPool name with
  | some e =>
    rw [GetEs_hit env host hget] at h
    injection h with h1 h2
    subst h1 h2
    exact hget
  | none =>
    cases hc : CreateEs env host s with
    | panic p s2 =>
      rw [GetEs_miss_panic hget hc] at h
      cases h
    | ret e s2 =>
      rw [GetEs_miss_ret hget hc] at h
      injection h with h1 h2
      subst h1 h2
      exact GoMap.get_set_self _ _ _

theorem runCalls_get (s : State) (calls : List Call) (n : String)
    (h : ∀ cl ∈ calls, cl.name ≠ n) :
    GoMap.get (runCalls s calls).EsPool n = GoMap.get s.EsPool n := by
  induction calls generalizing s with
  | nil => rfl
  | cons cl cls ih =>
    simp only [runCalls]
    rw [ih _ (fun x hx => h x (List.mem_cons_of_mem _ hx))]
    exact GetEs_get_other cl.env cl.host s (fun e => h cl (by simp) e.symm)

end SimpleChat

namespace SimpleChat

theorem CreateEs_state_ne (env : Env) (host : String) (s : State) :
    (CreateEs env host s).state ≠ s := by
  intro h
  have := CreateEs_heap_length env host s
  rw [h] at this
  omega

theorem State.init_WF : State.init.WF := by
  intro k p h
  simp [State.init, GoMap.get] at h

theorem GetEs_WF (env : Env) (name host : String) (s : State) (h : s.WF) :
    (GetEs env name host s).state.WF := by
  cases hget : GoMap.get s.EsPool name with
  | some e => rw [GetEs_hit env host hget]; exact h
  | none =>
    have hp := CreateEs_EsPool env host s
    have hl := CreateEs_heap_length env host s
    cases hc : CreateEs env host s with
    | panic p s1 =>
      rw [GetEs_miss_panic hget hc]
      rw [hc] at hp hl
      simp only [Result.state] at hp hl ⊢
      intro k q hk
      rw [hp] at hk
      have := h k q hk
      show q < s1.heap.length
      rw [hl]
      exact Nat.lt_succ_of_lt this
    | ret e s1 =>
      rw [GetEs_miss_ret hget hc]
      have he := (CreateEs_ret hc).1
      rw [hc] at hp hl
      simp only [Result.state] at hp hl ⊢
      intro k q hk
      simp only at hk
      by_cases hkn : k = name
      · subst hkn
        rw [GoMap.get_set_self] at hk
        injection hk with hk
        show q < s1.heap.length
        rw [hl, ← hk, he]
        exact Nat.lt_succ_self _
      · rw [GoMap.get_set_ne _ _ hkn, hp] at hk
        have := h k q hk
        show q < s1.heap.length
        rw [hl]
        exact Nat.lt_succ_of_lt this

/-- C1: once `GetEs(n, h1)` has returned a client `c`, a later `GetEs(n, h2)`, after any number
of `GetEs` calls for other names, returns the same `c` whatever `h2` is and whatever the network
does, and leaves the state as it found it; a call of `CreateEs` would have changed the state, so
none was made. -/
theorem GetEs_same_client (env1 env2 : Env) (n h1 h2 : String) (s s1 : State) (c : Ptr)
    (calls : List Call) (hcalls : ∀ cl ∈ calls, cl.name ≠ n)
    (hfirst : GetEs env1 n h1 s = .ret c s1) :
    GetEs env2 n h2 (runCalls s1 calls) = .ret c (runCalls s1 calls) ∧
      (CreateEs env2 h2 (runCalls s1 calls)).state ≠ runCalls s1 calls := by
  refine ⟨?_, CreateEs_state_ne _ _ _⟩
  apply GetEs_hit
  rw [runCalls_get s1 calls n hcalls]
  exact GetEs_get_self hfirst

/-- C1 at a concrete input: the name `"main"` is first built for one host, a call for the name
`"logs"` follows, and a call for `"main"` with another host and a dead network returns the
client of the first call. -/
theorem GetEs_same_client_witness :
    GetEs Env.badConfig "main" "http://b:9200" (runCalls State.withMain [Call.logs])
        = .ret 0 (runCalls State.withMain [Call.logs]) ∧
      (CreateEs Env.badConfig "http://b:9200" (runCalls State.withMain [Call.logs])).state
        ≠ runCalls State.withMain [Call.logs] :=
  GetEs_same_client Env.allOk Env.badConfig "main" "http://a:9200" "http://b:9200" State.init
    State.withMain 0 [Call.logs]
    (by
      intro cl hcl
      rw [List.mem_singleton] at hcl
      subst hcl
      decide)
    (by decide)

/-- C9: a `GetEs(name, host)` call that returns keeps every registry entry it found, key and
client; when `name` was present the state is unchanged and the client returned is the stored
one; when `name` was absent the registry afterwards is the old one with the single new entry
`name ↦ c`, `c` the client returned. -/
theorem GetEs_frame (env : Env) (name host : String) (s s1 : State) (c : Ptr)
    (hret : GetEs env name host s = .ret c s1) :
    (∀ k p, GoMap.get s.EsPool k = some p → GoMap.get s1.EsPool k = some p) ∧
      (∀ p, GoMap.get s.EsPool name = some p → s1 = s ∧ c = p) ∧
      (GoMap.get s.EsPool name = none →
        s1.EsPool = (name, c) :: s.EsPool ∧
        ∀ k, GoMap.get s1.EsPool k = if k = name then some c else GoMap.get s.EsPool k) := by
  cases hget : GoMap.get s.EsPool name with
  | some e =>
    rw [GetEs_hit env host hget] at hret
    injection hret with h1 h2
    subst h1 h2
    refine ⟨fun k p hk => hk, ?_, ?_⟩
    · intro p hp
      injection hp with hp
      exact ⟨rfl, hp⟩
    · intro h
      cases h
  | none =>
    cases hc : CreateEs env host s with
    | panic p s2 =>
      rw [GetEs_miss_panic hget hc] at hret
      cases hret
    | ret e s2 =>
      rw [GetEs_miss_ret hget hc] at hret
      have hp := (CreateEs_ret hc).2.1
      injection hret with h1 h2
      subst h1 h2
      have hall : ∀ k, GoMap.get (GoMap.set s2.EsPool name e) k
          = if k = name then some e else GoMap.get s.EsPool k := by
        intro k
        by_cases hk : k = name
        · subst hk
          simp [GoMap.get_set_self]
        · simp [GoMap.get_set_ne _ _ hk, hk, hp]
      refine ⟨?_, ?_, ?_⟩
      · intro k p hk
        simp only
        rw [hall]
        by_cases hkn : k = name
        · subst hkn
          rw [hget] at hk
          cases hk
        · simpa [hkn] using hk
      · intro p hp0
        cases hp0
      · intro _
        refine ⟨?_, hall⟩
        simp only [GoMap.set]
        rw [hp, GoMap.erase_of_get_none _ hget]

/-- C9 at a concrete input: a miss for `"logs"` next to the stored `"main"`. -/
theorem GetEs_frame_witness :
    (∀ k p, GoMap.get State.withMain.EsPool k = some p →
        GoMap.get State.withMainLogs.EsPool k = some p) ∧
      (∀ p, GoMap.get State.withMain.EsPool "logs" = some p →
        State.withMainLogs = State.withMain ∧ 1 = p) ∧
      (GoMap.get State.withMain.EsPool "logs" = none →
        State.withMainLogs.EsPool = ("logs", 1) :: State.withMain.EsPool ∧
        ∀ k, GoMap.get State.withMainLogs.EsPool k
          = if k = "logs" then some 1 else GoMap.get State.withMain.EsPool k) :=
  GetEs_frame Env.allOk "logs" "http://c:9200" State.withMain State.withMainLogs 1 (by decide)

end SimpleChat

namespace SimpleChat

/-- C7, amended: for every host string the endpoint list that `CreateEs` derives is non-empty,
and `CreateEs` checks none of its entries.  It hands the list as it is to `NewClient` and returns
exactly when `NewClient` and the ping report no error, so with a library that accepts every
address it returns a client built for exactly the pieces of the host string, whatever they are.
The pieces are the comma-delimited ones: none is the empty string exactly when the host string
is non-empty, neither starts nor ends with a comma and has no two commas in a row. -/
theorem CreateEs_endpoints_unvalidated (env : Env) (h : String) (s : State) :
    endpoints h ≠ [] ∧
      ((∀ e ∈ endpoints h, e ≠ "") ↔
        (h ≠ "" ∧ h.data.head? ≠ some ',' ∧ h.data.getLast? ≠ some ',' ∧
          List.Chain' (fun a b => ¬ (a = ',' ∧ b = ',')) h.data)) ∧
      ((∃ p s1, CreateEs env h s = .ret p s1) ↔
        ((env.NewClient (mkConfig (endpoints h))).2 = none ∧
          ∃ client, (env.NewClient (mkConfig (endpoints h))).1 = some client ∧
            env.Ping client = none)) ∧
      CreateEs Env.allOk h s
        = .ret s.heap.length
            { heap := s.heap ++ [{ Client := some { cfg := mkConfig (endpoints h) } }],
              EsPool := s.EsPool } := by
  refine ⟨?_, ?_, ⟨?_, ?_⟩, ?_⟩
  · intro hnil
    have := congrArg (List.map String.data) hnil
    rw [endpoints_data] at this
    exact strings.genSplit_ne_nil _ _ _ this
  · have key := strings.genSplit_no_empty ',' _ h.data rfl
    rw [← endpoints_data] at key
    have hne : h ≠ "" ↔ h.data ≠ [] := by
      constructor
      · intro hh hd
        exact hh (String.ext hd)
      · intro hh hd
        exact hh (by rw [hd])
    rw [hne]
    refine Iff.trans ?_ key
    constructor
    · intro hall e he
      obtain ⟨x, hx, rfl⟩ := List.mem_map.mp he
      intro hd
      exact hall x hx (String.ext hd)
    · intro hall e he hd
      exact hall e.data (List.mem_map_of_mem _ he) (by rw [hd])
  · rintro ⟨p, s1, hret⟩
    obtain ⟨_, _, _, client, h1, h2, h3, _⟩ := CreateEs_ret hret
    exact ⟨h1, client, h2, h3⟩
  · intro hb
    obtain ⟨s1, hret⟩ := CreateEs_of_Builds s hb
    exact ⟨_, s1, hret⟩
  · simp [CreateEs, Env.allOk]

/-- C7, amended, at the empty host string: with a library that accepts every address `CreateEs`
returns a client built for the one address `""`. -/
theorem CreateEs_endpoints_unvalidated_witness :
    CreateEs Env.allOk "" State.init
      = .ret State.init.heap.length
          { heap := State.init.heap ++ [{ Client := some { cfg := mkConfig (endpoints "") } }],
            EsPool := State.init.EsPool } :=
  (CreateEs_endpoints_unvalidated Env.allOk "" State.init).2.2.2

/-- C2: for names `n1 ≠ n2` both absent from the registry and a host string `h` whose builds
succeed, `GetEs(n1, h)` and then `GetEs(n2, h)` both return, the two clients are distinct, each
is stored under its own name, and (the registry holding only allocated clients) neither was
stored in the registry, under any name, before the call that built it. -/
theorem GetEs_distinct_names (env1 env2 : Env) (n1 n2 h : String) (s : State)
    (hne : n1 ≠ n2) (hn1 : GoMap.get s.EsPool n1 = none) (hn2 : GoMap.get s.EsPool n2 = none)
    (hb1 : env1.Builds h) (hb2 : env2.Builds h) :
    ∃ c1 s1 c2 s2, GetEs env1 n1 h s = .ret c1 s1 ∧ GetEs env2 n2 h s1 = .ret c2 s2 ∧
      c1 ≠ c2 ∧ GoMap.get s2.EsPool n1 = some c1 ∧ GoMap.get s2.EsPool n2 = some c2 ∧
      (s.WF → (∀ k p, GoMap.get s.EsPool k = some p → p ≠ c1) ∧
        (∀ k p, GoMap.get s1.EsPool k = some p → p ≠ c2)) := by
  obtain ⟨t1, ht1⟩ := CreateEs_of_Builds s hb1
  have hg1 := GetEs_miss_ret hn1 ht1
  obtain ⟨_, hp1, hl1, _⟩ := CreateEs_ret ht1
  have hn2' : GoMap.get ({ t1 with EsPool := GoMap.set t1.EsPool n1 s.heap.length } : State).EsPool
      n2 = none := by
    show GoMap.get (GoMap.set t1.EsPool n1 s.heap.length) n2 = none
    rw [GoMap.get_set_ne _ _ (fun e => hne e.symm), hp1]
    exact hn2
  obtain ⟨t2, ht2⟩ :=
    CreateEs_of_Builds ({ t1 with EsPool := GoMap.set t1.EsPool n1 s.heap.length } : State) hb2
  have hg2 := GetEs_miss_ret hn2' ht2
  obtain ⟨_, hp2, _, _⟩ := CreateEs_ret ht2
  have hlen : ({ t1 with EsPool := GoMap.set t1.EsPool n1 s.heap.length } : State).heap.length
      = s.heap.length + 1 := hl1
  refine ⟨_, _, _, _, hg1, hg2, ?_, ?_, ?_, ?_⟩
  · rw [hlen]
    exact Nat.ne_of_lt (Nat.lt_succ_self _)
  · show GoMap.get (GoMap.set t2.EsPool n2 _) n1 = some s.heap.length
    rw [GoMap.get_set_ne _ _ hne, hp2]
    exact GoMap.get_set_self _ _ _
  · exact GoMap.get_set_self _ _ _
  · intro hwf
    constructor
    · intro k p hk
      exact Nat.ne_of_lt (hwf k p hk)
    · intro k p hk
      have hwf1 := GetEs_WF env1 n1 h s hwf
      rw [hg1] at hwf1
      exact Nat.ne_of_lt (hwf1 k p hk)

/-- C2 at a concrete input: `"main"` and `"logs"` built for the same host from the empty
registry get the addresses 0 and 1. -/
theorem GetEs_distinct_names_witness :
    ∃ c1 s1 c2 s2, GetEs Env.allOk "main" "http://a:9200" State.init = .ret c1 s1 ∧
      GetEs Env.allOk "logs" "http://a:9200" s1 = .ret c2 s2 ∧
      c1 ≠ c2 ∧ GoMap.get s2.EsPool "main" = some c1 ∧ GoMap.get s2.EsPool "logs" = some c2 ∧
      (State.init.WF → (∀ k p, GoMap.get State.init.EsPool k = some p → p ≠ c1) ∧
        (∀ k p, GoMap.get s1.EsPool k = some p → p ≠ c2)) :=
  GetEs_distinct_names Env.allOk Env.allOk "main" "logs" "http://a:9200" State.init
    (by decide) (by decide) (by decide) ⟨rfl, _, rfl, rfl⟩ ⟨rfl, _, rfl, rfl⟩

/-- C5: `CreateEs` returns a client exactly when `NewClient` gives a client without error and
the ping of that client gives no error, and the struct it returns holds that client; an error
of `NewClient` or of the ping is the value of the panic; when the build does not succeed
`CreateEs` panics, and so does a `GetEs` for an absent name, which leaves `EsPool` as it was. -/
theorem CreateEs_returns_iff_builds (env : Env) (name host : String) (s : State) :
    ((∃ p s1, CreateEs env host s = .ret p s1) ↔ env.Builds host) ∧
      (∀ p s1, CreateEs env host s = .ret p s1 →
        ∃ client, (env.NewClient (mkConfig (endpoints host))).1 = some client ∧
          s1.heap[p]? = some { Client := some client }) ∧
      (∀ err, (env.NewClient (mkConfig (endpoints host))).2 = some err →
        ∃ s1, CreateEs env host s = .panic (.error err) s1) ∧
      (∀ client err, (env.NewClient (mkConfig (endpoints host))).2 = none →
        (env.NewClient (mkConfig (endpoints host))).1 = some client →
        env.Ping client = some err → ∃ s1, CreateEs env host s = .panic (.error err) s1) ∧
      (¬ env.Builds host → ∃ p s1, CreateEs env host s = .panic p s1) ∧
      (¬ env.Builds host → GoMap.get s.EsPool name = none →
        ∃ p s1, GetEs env name host s = .panic p s1 ∧ s1.EsPool = s.EsPool) := by
  refine ⟨⟨?_, ?_⟩, ?_, ?_, ?_, ?_, ?_⟩
  · rintro ⟨p, s1, h⟩
    obtain ⟨_, _, _, client, h1, h2, h3, _⟩ := CreateEs_ret h
    exact ⟨h1, client, h2, h3⟩
  · intro hb
    obtain ⟨s1, h⟩ := CreateEs_of_Builds s hb
    exact ⟨_, s1, h⟩
  · intro p s1 h
    obtain ⟨_, _, _, client, _, h2, _, h4⟩ := CreateEs_ret h
    exact ⟨client, h2, h4⟩
  · intro err herr
    unfold CreateEs
    simp only [herr]
    exact ⟨_, rfl⟩
  · intro client err herr hclient hping
    unfold CreateEs
    simp only [herr, hclient, hping]
    exact ⟨_, rfl⟩
  · exact CreateEs_of_not_Builds s
  · intro hb hmiss
    obtain ⟨p, s1, h⟩ := CreateEs_of_not_Builds s hb
    refine ⟨p, s1, GetEs_miss_panic hmiss h, ?_⟩
    have := CreateEs_EsPool env host s
    rw [h] at this
    exact this

/-- C5 at a concrete input: the ping fails, `GetEs` for the absent name `"main"` panics with the
error of the ping and the registry stays empty. -/
theorem CreateEs_returns_iff_builds_witness :
    ∃ p s1, GetEs Env.pingDown "main" "http://a:9200" State.init = .panic p s1 ∧
      s1.EsPool = State.init.EsPool :=
  (CreateEs_returns_iff_builds Env.pingDown "main" "http://a:9200" State.init).2.2.2.2.2
    (fun hb => by
      obtain ⟨_, client, _, hping⟩ := hb
      cases hping)
    (by decide)

end SimpleChat

namespace SimpleChat

/-! ## The bulk body of `InsertBatch` -/

set_option maxRecDepth 1000000

theorem InsertBatch.loop_eq (n : Nat) (i : Int) (buf : String) (h : i + n = 10) :
    InsertBatch.loop i buf = buf ++ InsertBatch.entries (InsertBatch.counters i n) := by
  induction n generalizing i buf with
  | zero =>
    have hi : ¬ i < 10 := by omega
    rw [InsertBatch.loop, if_neg hi]
    apply String.ext
    simp [InsertBatch.entries, InsertBatch.counters]
  | succ n ih =>
    have hi : i < 10 := by omega
    rw [InsertBatch.loop, if_pos hi]
    simp only
    rw [ih (i + 1) _ (by push_cast at h; omega)]
    apply String.ext
    simp [InsertBatch.entries, InsertBatch.counters, InsertBatch.entry, String.data_push]

theorem InsertBatch.bodyBuf_eq :
    InsertBatch.bodyBuf = InsertBatch.entries [2, 3, 4, 5, 6, 7, 8, 9] := by
  have h := InsertBatch.loop_eq 8 2 "" (by norm_num)
  rw [InsertBatch.bodyBuf, h]
  apply String.ext
  simp [InsertBatch.counters]

theorem InsertBatch.bulkLines_eq :
    strings.Split InsertBatch.bodyBuf '\n' = InsertBatch.expectedLines ++ [""] := by
  rw [InsertBatch.bodyBuf_eq]
  decide

/-- C3: the bulk body of `InsertBatch` holds exactly 8 action/document pairs, for the ids
2, 3, ..., 9 in this order: for `k = 0..7` the line `2k` is the create action with `_index`
`"test_index"` and `_id` `"test_"` followed by the decimal `k + 2`, and the line `2k + 1` is the
document whose `id` is `k + 2`. -/
theorem InsertBatch_bulk_pairs :
    (bulkLines InsertBatch.bodyBuf).length = 2 * 8 ∧
      ∀ k : Nat, k < 8 →
        (bulkLines InsertBatch.bodyBuf)[2 * k]? =
            some ("\x7b\"create\":\x7b\"_id\":\"test_" ++ toString (k + 2) ++ "\",\"_index\":\"test_index\"\x7d\x7d") ∧
          (bulkLines InsertBatch.bodyBuf)[2 * k + 1]? =
            some ("\x7b\"id\":" ++ toString (k + 2) ++ ",\"location\":\x7b\"lat\":3.1415,\"lon\":110.2567\x7d\x7d") := by
  rw [bulkLines, InsertBatch.bulkLines_eq]
  decide

/-- C10: the bulk body of `InsertBatch` is newline-delimited: it has 16 newlines and 16 lines,
nothing follows the last newline, no line is empty or holds a newline, and the body is the lines
each followed by one newline.  The lines alternate: for `k = 0..7` the line `2k` is the text of a
create action whose `_id` is `"test_"` followed by the decimal `k + 2`, and the line `2k + 1`,
right after it, is the text of the document whose `id` is the same `k + 2`; these are the values
`createLine` and `body` of the loop at the counter `k + 2` as `json.Marshal` writes them. -/
theorem InsertBatch_body_framing :
    InsertBatch.bodyBuf.data.count '\n' = 16 ∧
      (bulkLines InsertBatch.bodyBuf).length = 16 ∧
      bulkRest InsertBatch.bodyBuf = some "" ∧
      (∀ l ∈ bulkLines InsertBatch.bodyBuf, l ≠ "" ∧ '\n' ∉ l.data) ∧
      InsertBatch.bodyBuf
        = (bulkLines InsertBatch.bodyBuf).foldr (fun l rest => l ++ "\n" ++ rest) "" ∧
      (∀ k : Nat, k < 8 →
        (bulkLines InsertBatch.bodyBuf)[2 * k]? =
            some ("\x7b\"create\":\x7b\"_id\":\"test_" ++ toString (k + 2) ++
              "\",\"_index\":\"test_index\"\x7d\x7d") ∧
          (bulkLines InsertBatch.bodyBuf)[2 * k + 1]? =
            some ("\x7b\"id\":" ++ toString (k + 2) ++
              ",\"location\":\x7b\"lat\":3.1415,\"lon\":110.2567\x7d\x7d")) ∧
      ∀ k : Nat, k < 8 →
        (bulkLines InsertBatch.bodyBuf)[2 * k]?
            = some (json.Marshal (InsertBatch.createLine (k + 2))) ∧
          (bulkLines InsertBatch.bodyBuf)[2 * k + 1]?
            = some (json.Marshal (document (k + 2))) := by
  have hlines : bulkLines InsertBatch.bodyBuf = InsertBatch.expectedLines := by
    rw [bulkLines, InsertBatch.bulkLines_eq]
    decide
  have hrest : bulkRest InsertBatch.bodyBuf = some "" := by
    rw [bulkRest, InsertBatch.bulkLines_eq]
    decide
  rw [hlines, hrest]
  refine ⟨?_, by decide, rfl, by decide, ?_, by decide, by decide⟩
  · rw [InsertBatch.bodyBuf_eq]
    decide
  · rw [InsertBatch.bodyBuf_eq]
    decide

end SimpleChat

namespace SimpleChat

/-! ## The operations when the call fails -/

theorem closeAndPrint_nil (stdout : List String) :
    closeAndPrint none stdout = .fault .nilDeref { stdout := stdout, bodyClosed := false } :=
  rfl

theorem operations_fault_of_nil (Do : Transport) (h : ∀ req, (Do req).1 = none) :
    ∀ op ∈ operations, (op Do).isFault = true := by
  intro op hop
  simp only [operations, List.mem_cons, List.mem_singleton, List.not_mem_nil, or_false] at hop
  rcases hop with rfl | rfl | rfl | rfl | rfl | rfl | rfl | rfl | rfl | rfl <;>
    simp [CreateIndex, Query, DeleteIndex, InsertToEs, InsertBatch, SelectBySearch, UpdateSingle,
      UpdateByQuery, DeleteSingle, DeleteByQuery, h, closeAndPrint_nil, Outcome.isFault]

/-- C4 fails on the code: when `req.Do` returns no response and an error, `InsertToEs` prints the
error and then dereferences the nil response at `defer res.Body.Close()`; it stops with the
nil-pointer panic, as does every one of the ten operations, and no body is closed. -/
theorem InsertToEs_nil_response_faults :
    InsertToEs Transport.down
        = .fault .nilDeref
            { stdout := ["dial tcp 127.0.0.1:9200: connect: connection refused"],
              bodyClosed := false } ∧
      CreateIndex Transport.down = .fault .nilDeref { stdout := [], bodyClosed := false } ∧
      ∀ op ∈ operations, (op Transport.down).isFault = true :=
  ⟨by decide, by decide, operations_fault_of_nil Transport.down (fun _ => rfl)⟩

end SimpleChat

namespace SimpleChat

/-! ## The registry holds allocated clients only -/

theorem runCalls_WF (s : State) (calls : List Call) (h : s.WF) : (runCalls s calls).WF := by
  induction calls generalizing s with
  | nil => exact h
  | cons cl cls ih => exact ih _ (GetEs_WF cl.env cl.name cl.host s h)

/-- In every state reached from the start of the process by `GetEs` calls, whatever the network
did and whether or not a call panicked, each client the registry holds is an allocated one. -/
theorem EsPool_holds_allocated (calls : List Call) : (runCalls State.init calls).WF :=
  runCalls_WF State.init calls State.init_WF

end SimpleChat

namespace SimpleChat

/-! ## The operations when the call is answered -/

theorem closeAndPrint_some (r : Response) (stdout : List String) :
    closeAndPrint (some r) stdout = .done { stdout := stdout ++ [r.text], bodyClosed := true } :=
  rfl

/-- When `req.Do` answers every request with the response `r` and no error, each of the ten
operations returns after printing the one line `r.String()` and closing the response body. -/
theorem operations_done_of_response (Do : Transport) (r : Response)
    (h : ∀ req, Do req = (some r, none)) :
    ∀ op ∈ operations, op Do = .done { stdout := [r.text], bodyClosed := true } := by
  intro op hop
  simp only [operations, List.mem_cons, List.mem_singleton, List.not_mem_nil, or_false] at hop
  rcases hop with rfl | rfl | rfl | rfl | rfl | rfl | rfl | rfl | rfl | rfl <;>
    simp [CreateIndex, Query, DeleteIndex, InsertToEs, InsertBatch, SelectBySearch, UpdateSingle,
      UpdateByQuery, DeleteSingle, DeleteByQuery, h, closeAndPrint_some]

/-- The answered case at a concrete transport: every request gets `[200 OK]` with an empty
object. -/
theorem operations_done_of_response_witness :
    ∀ op ∈ operations,
      op Transport.up = .done { stdout := ["[200 OK] \x7b\x7d"], bodyClosed := true } :=
  operations_done_of_response Transport.up { text := "[200 OK] \x7b\x7d" } (fun _ => rfl)

end SimpleChat

namespace SimpleChat

/-! ## `GetEs` under a schedule -/

theorem GetEs_eq_steps (env : Env) (name host : String) (s : State) :
    GetEs.steps env name host 3 (Thread.start, s)
      = (Thread.ofResult (GetEs env name host s), (GetEs env name host s).state) := by
  simp only [GetEs.steps, GetEs.step, GetEs]
  cases hget : GoMap.get s.EsPool name with
  | some e => rfl
  | none =>
    simp only
    cases hc : CreateEs env host s with
    | ret e s1 => rfl
    | panic p s1 => rfl

theorem Sys.step_eq {calls : List Call} {i : Nat} {y : Sys} {c : Call} {t : Thread}
    (hc : calls[i]? = some c) (ht : y.threads[i]? = some t) :
    Sys.step calls i y
      = { threads := y.threads.set i (GetEs.step c.env c.name c.host t y.state).1,
          state := (GetEs.step c.env c.name c.host t y.state).2 } := by
  simp [Sys.step, hc, ht]

theorem Sys.run_three {calls : List Call} {i : Nat} {y : Sys} {c : Call}
    (hc : calls[i]? = some c) (ht : y.threads[i]? = some Thread.start) :
    Sys.run calls [i, i, i] y
      = { threads := y.threads.set i (Thread.ofResult (GetEs c.env c.name c.host y.state)),
          state := (GetEs c.env c.name c.host y.state).state } := by
  have hlt : i < y.threads.length := (List.getElem?_eq_some.mp ht).1
  have h3 := GetEs_eq_steps c.env c.name c.host y.state
  simp only [GetEs.steps] at h3
  have e1 := Sys.step_eq hc ht
  have e2 := Sys.step_eq (y := Sys.step calls i y) hc
    (by rw [e1]; exact List.getElem?_set_self hlt)
  have e3 := Sys.step_eq (y := Sys.step calls i (Sys.step calls i y)) hc
    (by rw [e2, e1]; exact List.getElem?_set_self (by simpa using hlt))
  simp only [Sys.run]
  rw [e3, e2, e1]
  simp only [List.set_set]
  rw [h3]

theorem Sys.run_append (calls : List Call) (a b : List Nat) (y : Sys) :
    Sys.run calls (a ++ b) y = Sys.run calls b (Sys.run calls a y) := by
  induction a generalizing y with
  | nil => rfl
  | cons i a ih => exact ih (Sys.step calls i y)

end SimpleChat

namespace SimpleChat

theorem Sys.sequential_hits (calls : List Call) (n : String) (c : Ptr)
    (hnames : ∀ cl ∈ calls, cl.name = n) (m i : Nat) (y : Sys)
    (hlen : i + m = calls.length) (hthreads : y.threads.length = calls.length)
    (hstart : ∀ j, i ≤ j → j < calls.length → y.threads[j]? = some Thread.start)
    (hget : GoMap.get y.state.EsPool n = some c) :
    (Sys.run calls (Sys.sequential i m) y).state = y.state ∧
      (Sys.run calls (Sys.sequential i m) y).threads.length = calls.length ∧
      (∀ j, j < i → (Sys.run calls (Sys.sequential i m) y).threads[j]? = y.threads[j]?) ∧
      (∀ j, i ≤ j → j < calls.length →
        (Sys.run calls (Sys.sequential i m) y).threads[j]? = some (Thread.returned c)) := by
  induction m generalizing i y with
  | zero =>
    refine ⟨rfl, hthreads, fun _ _ => rfl, ?_⟩
    intro j hij hj
    omega
  | succ m ih =>
    have hi : i < calls.length := by omega
    obtain ⟨cl, hcl, hmem⟩ : ∃ cl, calls[i]? = some cl ∧ cl ∈ calls :=
      ⟨calls[i], List.getElem?_eq_getElem hi, List.getElem_mem hi⟩
    have hname : cl.name = n := hnames cl hmem
    have hhit : GetEs cl.env cl.name cl.host y.state = .ret c y.state := by
      apply GetEs_hit
      rw [hname]
      exact hget
    have h3 := Sys.run_three hcl (hstart i (Nat.le_refl _) hi)
    rw [hhit] at h3
    simp only [Thread.ofResult, Result.state] at h3
    have hseq : Sys.sequential i (m + 1) = [i, i, i] ++ Sys.sequential (i + 1) m := rfl
    rw [hseq, Sys.run_append, h3]
    have hrec := ih (i + 1)
      { threads := y.threads.set i (Thread.returned c), state := y.state }
      (by omega) (by simpa using hthreads)
      (by
        intro j hij hj
        show (y.threads.set i (Thread.returned c))[j]? = some Thread.start
        rw [List.getElem?_set_ne (by omega)]
        exact hstart j (by omega) hj)
      hget
    obtain ⟨r1, r2, r3, r4⟩ := hrec
    refine ⟨r1, r2, ?_, ?_⟩
    · intro j hj
      rw [r3 j (by omega)]
      show (y.threads.set i (Thread.returned c))[j]? = y.threads[j]?
      exact List.getElem?_set_ne (by omega)
    · intro j hij hj
      by_cases hji : j = i
      · subst hji
        rw [r3 j (by omega)]
        show (y.threads.set j (Thread.returned c))[j]? = some (Thread.returned c)
        exact List.getElem?_set_self (by omega)
      · exact r4 j (by omega) hj

theorem Sys.run_sequential {calls : List Call} {n : String} {s : State}
    (hs : GoMap.get s.EsPool n = none)
    (hcalls : ∀ c ∈ calls, c.name = n ∧ c.env.Builds c.host) (hne : calls ≠ []) :
    ∃ s1, Sys.run calls (Sys.sequential 0 calls.length) (Sys.start calls s)
        = { threads := List.replicate calls.length (Thread.returned s.heap.length),
            state := s1 } ∧
      s1.heap.length = s.heap.length + 1 ∧ GoMap.get s1.EsPool n = some s.heap.length := by
  cases calls with
  | nil => exact absurd rfl hne
  | cons c0 rest =>
    obtain ⟨hname0, hb0⟩ := hcalls c0 (by simp)
    obtain ⟨t1, ht1⟩ := CreateEs_of_Builds s hb0
    obtain ⟨_, _, hl1, _⟩ := CreateEs_ret ht1
    have hg0 : GetEs c0.env c0.name c0.host s
        = .ret s.heap.length { t1 with EsPool := GoMap.set t1.EsPool c0.name s.heap.length } :=
      GetEs_miss_ret (by rw [hname0]; exact hs) ht1
    have h3 := @Sys.run_three (c0 :: rest) 0 (Sys.start (c0 :: rest) s) c0 (by simp)
      (by simp [Sys.start])
    rw [show (Sys.start (c0 :: rest) s).state = s from rfl, hg0] at h3
    simp only [Thread.ofResult, Result.state] at h3
    have hseq : Sys.sequential 0 (c0 :: rest).length = [0, 0, 0] ++ Sys.sequential 1 rest.length :=
      rfl
    rw [hseq, Sys.run_append, h3]
    have hrec := Sys.sequential_hits (c0 :: rest) n s.heap.length
      (fun cl hcl => (hcalls cl hcl).1) rest.length 1
      { threads := (Sys.start (c0 :: rest) s).threads.set 0 (Thread.returned s.heap.length),
        state := { t1 with EsPool := GoMap.set t1.EsPool c0.name s.heap.length } }
      (by simp [Nat.add_comm]) (by simp [Sys.start])
      (by
        intro j hij hj
        show ((Sys.start (c0 :: rest) s).threads.set 0 (Thread.returned s.heap.length))[j]?
          = some Thread.start
        rw [List.getElem?_set_ne (by omega)]
        simp only [Sys.start, List.getElem?_map]
        rw [List.getElem?_eq_getElem hj]
        rfl)
      (by
        show GoMap.get (GoMap.set t1.EsPool c0.name s.heap.length) n = some s.heap.length
        rw [hname0]
        exact GoMap.get_set_self _ _ _)
    obtain ⟨r1, r2, r3, r4⟩ := hrec
    refine ⟨{ t1 with EsPool := GoMap.set t1.EsPool c0.name s.heap.length }, ?_, hl1, ?_⟩
    · generalize Sys.run (c0 :: rest) (Sys.sequential 1 rest.length)
        { threads := (Sys.start (c0 :: rest) s).threads.set 0 (Thread.returned s.heap.length),
          state := { t1 with EsPool := GoMap.set t1.EsPool c0.name s.heap.length } } = y
        at r1 r2 r3 r4
      obtain ⟨th, st⟩ := y
      simp only at r1 r2 r3 r4
      subst r1
      congr 1
      apply List.ext_getElem?
      intro j
      rw [List.getElem?_replicate]
      by_cases hj : j < (c0 :: rest).length
      · rw [if_pos hj]
        by_cases hj0 : j = 0
        · subst hj0
          rw [r3 0 (by omega)]
          simp [Sys.start]
        · exact r4 j (by omega) hj
      · rw [if_neg hj]
        exact List.getElem?_eq_none (by omega)
    · show GoMap.get (GoMap.set t1.EsPool c0.name s.heap.length) n = some s.heap.length
      rw [hname0]
      exact GoMap.get_set_self _ _ _

theorem Sys.run_interleaved {a b : Call} {n : String} {s : State}
    (hs : GoMap.get s.EsPool n = none)
    (ha : a.name = n ∧ a.env.Builds a.host) (hb : b.name = n ∧ b.env.Builds b.host) :
    ∃ s2, Sys.run [a, b] Sys.interleaved (Sys.start [a, b] s)
        = { threads := [Thread.returned s.heap.length, Thread.returned (s.heap.length + 1)],
            state := s2 } ∧
      s2.heap.length = s.heap.length + 2 ∧
      GoMap.get s2.EsPool n = some (s.heap.length + 1) := by
  obtain ⟨t1, ht1⟩ := CreateEs_of_Builds s ha.2
  obtain ⟨_, _, hl1, _⟩ := CreateEs_ret ht1
  obtain ⟨t2, ht2⟩ := CreateEs_of_Builds t1 hb.2
  obtain ⟨_, _, hl2, _⟩ := CreateEs_ret ht2
  rw [hl1] at ht2
  refine ⟨State.mk t2.heap
    (GoMap.set (GoMap.set t2.EsPool n s.heap.length) n (s.heap.length + 1)), ?_, ?_, ?_⟩
  · simp [Sys.run, Sys.step, Sys.interleaved, Sys.start, GetEs.step, ha.1, hb.1, hs, ht1, ht2]
  · show t2.heap.length = s.heap.length + 2
    rw [hl2, hl1]
  · exact GoMap.get_set_self _ _ _

end SimpleChat

namespace SimpleChat

/-- C8, as stated, fails: two first-time calls `GetEs("main", "http://a:9200")` that overlap,
both looking up before either stores, build two clients; the first call returns the client at
address 0, the second the one at address 1, and the registry keeps only the second.  So it is
not true that under every schedule the two calls return one client and one client is built. -/
theorem GetEs_interleaved_builds_two :
    Sys.run [Call.main, Call.main] Sys.interleaved (Sys.start [Call.main, Call.main] State.init)
        = { threads := [Thread.returned 0, Thread.returned 1],
            state :=
              { heap := [{ Client := some { cfg := mkConfig ["http://a:9200"] } },
                         { Client := some { cfg := mkConfig ["http://a:9200"] } }],
                EsPool := [("main", 1)] } } ∧
      ¬ (∀ sched : List Nat, ∀ e1 e2 : Ptr,
          (Sys.run [Call.main, Call.main] sched
            (Sys.start [Call.main, Call.main] State.init)).threads
              = [Thread.returned e1, Thread.returned e2] →
          e1 = e2 ∧
            (Sys.run [Call.main, Call.main] sched
              (Sys.start [Call.main, Call.main] State.init)).state.heap.length = 1) := by
  refine ⟨by decide, ?_⟩
  intro H
  have h := (H Sys.interleaved 0 1 (by decide)).1
  exact absurd h (by decide)

/-- C8, amended: `GetEs` is not synchronised.  Run statement by statement, three steps of one
call with no other call in between are `GetEs` itself.  For a name absent from the registry and
calls whose builds succeed: when the calls do not overlap, each running its three statements
before the next starts, exactly one client is built, every call returns it and it is the one
stored.
When two calls overlap, both looking up before either stores, each builds a client of its own
and returns it, two clients are built, and the registry keeps the one stored last. -/
theorem GetEs_unsynchronised (s : State) (n : String) (calls : List Call) (a b : Call)
    (hs : GoMap.get s.EsPool n = none)
    (hcalls : ∀ c ∈ calls, c.name = n ∧ c.env.Builds c.host) (hne : calls ≠ [])
    (ha : a.name = n ∧ a.env.Builds a.host) (hb : b.name = n ∧ b.env.Builds b.host) :
    (∀ (env : Env) (host : String) (s0 : State),
        GetEs.steps env n host 3 (Thread.start, s0)
          = (Thread.ofResult (GetEs env n host s0), (GetEs env n host s0).state)) ∧
      (∃ s1, Sys.run calls (Sys.sequential 0 calls.length) (Sys.start calls s)
          = { threads := List.replicate calls.length (Thread.returned s.heap.length),
              state := s1 } ∧
        s1.heap.length = s.heap.length + 1 ∧
        GoMap.get s1.EsPool n = some s.heap.length) ∧
      (∃ s2, Sys.run [a, b] Sys.interleaved (Sys.start [a, b] s)
          = { threads := [Thread.returned s.heap.length, Thread.returned (s.heap.length + 1)],
              state := s2 } ∧
        s2.heap.length = s.heap.length + 2 ∧
        GoMap.get s2.EsPool n = some (s.heap.length + 1)) :=
  ⟨fun env host s0 => GetEs_eq_steps env n host s0, Sys.run_sequential hs hcalls hne,
    Sys.run_interleaved hs ha hb⟩

/-- C8, amended, at a concrete input: three calls for `"main"` from the empty registry, and two
of them overlapping. -/
theorem GetEs_unsynchronised_witness :
    (∀ (env : Env) (host : String) (s0 : State),
        GetEs.steps env "main" host 3 (Thread.start, s0)
          = (Thread.ofResult (GetEs env "main" host s0), (GetEs env "main" host s0).state)) ∧
      (∃ s1, Sys.run [Call.main, Call.main, Call.main]
            (Sys.sequential 0 [Call.main, Call.main, Call.main].length)
            (Sys.start [Call.main, Call.main, Call.main] State.init)
          = { threads := List.replicate [Call.main, Call.main, Call.main].length
                (Thread.returned State.init.heap.length),
              state := s1 } ∧
        s1.heap.length = State.init.heap.length + 1 ∧
        GoMap.get s1.EsPool "main" = some State.init.heap.length) ∧
      (∃ s2, Sys.run [Call.main, Call.main] Sys.interleaved
            (Sys.start [Call.main, Call.main] State.init)
          = { threads := [Thread.returned State.init.heap.length,
                Thread.returned (State.init.heap.length + 1)],
              state := s2 } ∧
        s2.heap.length = State.init.heap.length + 2 ∧
        GoMap.get s2.EsPool "main" = some (State.init.heap.length + 1)) :=
  GetEs_unsynchronised State.init "main" [Call.main, Call.main, Call.main] Call.main Call.main
    (by decide)
    (by
      intro c hc
      simp only [List.mem_cons, List.mem_singleton, List.not_mem_nil, or_false, or_self] at hc
      subst hc
      exact ⟨rfl, rfl, _, rfl, rfl⟩)
    (by simp)
    ⟨rfl, rfl, _, rfl, rfl⟩ ⟨rfl, rfl, _, rfl, rfl⟩

end SimpleChat
